import Mathlib

/-!
# protoc-gen-microweb: the descriptor-to-source translation of `microweb.go`

A shallow embedding of `src/microweb.go`: the HTTP binding extractor (`getHandler`), the
alias table of the imports (`extraImports`, `getExtraImportAlias`), the file selection of
`Execute` and `generate`, and the execution of the template `microwebTpl` on a file.
-/

namespace MicroWeb

/-! ## Go library pieces used by the module -/

/-- A Go `map[string]string`, kept as the list of its entries in insertion order. Keys are
unique as long as the list is only changed through `mapSet`. -/
abbrev GoMap := List (String × String)

/-- The two-value map read `v, ok := m[k]`: `none` stands for `ok = false`. -/
def mapGet : GoMap → String → Option String
  | [], _ => none
  | (k', v) :: rest, k => if k' = k then some v else mapGet rest k

/-- The assignment `m[k] = v`. -/
def mapSet : GoMap → String → String → GoMap
  | [], k, v => [(k, v)]
  | (k', v') :: rest, k, v => if k' = k then (k', v) :: rest else (k', v') :: mapSet rest k v

/-- Splitting a character sequence at every occurrence of a one-character separator: the
result always has one more segment than there are separators. -/
def splitChars (sep : Char) : List Char → List (List Char)
  | [] => [[]]
  | c :: cs =>
    if c = sep then [] :: splitChars sep cs
    else
      match splitChars sep cs with
      | [] => [[c]]
      | seg :: segs => (c :: seg) :: segs

/-- Go `strings.Split(s, sep)` for a separator of one (ASCII) character, the only kind
`microweb.go` uses (`"/"` and `";"`). -/
def stringsSplit (s : String) (sep : Char) : List String :=
  (splitChars sep s.toList).map String.mk

/-- Go `strings.Join(parts, "")`. -/
def stringsJoinEmpty (parts : List String) : String :=
  String.mk (parts.map String.toList).flatten

/-! ## The schema model (`pgs`) and the HTTP rule (`annotations.HttpRule`) -/

/-- The fields of `annotations.HttpRule` that the module reads, each through its getter
(`GetGet`, `GetPost`, ...), which yields `""` for an unset field. In the protobuf schema the
five patterns are the cases of a oneof, so a decoded rule has at most one of them set; the
structure does not impose this, and `getHandler` does not rely on it. -/
structure HttpRule where
  get : String
  post : String
  put : String
  patch : String
  delete : String
  body : String
  deriving DecidableEq, Repr

/-- The Go struct `handler`. -/
structure handler where
  method : String
  pattern : String
  body : String
  deriving DecidableEq, Repr

/-- A `pgs.Message` as the template reads it: its name (`.Name`), its Go name (`name .`,
which is `p.ctx.Name`) and the Go import path of the file that declares it
(`importPath .`). -/
structure Message where
  name : String
  goName : String
  importPath : String
  deriving DecidableEq, Repr

/-- A `pgs.Method`; `name` is its Go name (`name .`, which is `p.ctx.Name`). `http` is the
outcome of `proto.GetExtension(opts, annotations.E_Http)` followed by the type assertion to
`*annotations.HttpRule`: `none` when the extension is absent or cannot be decoded. -/
structure Method where
  name : String
  input : Message
  output : Message
  serverStreaming : Bool
  http : Option HttpRule
  deriving DecidableEq, Repr

/-- A `pgs.Service`. -/
structure Service where
  name : String
  methods : List Method
  deriving DecidableEq, Repr

/-- A `pgs.File`: its name (`name .`), proto package name (`Package().ProtoName()`), Go
package name (`package .`) and import path (`importPath .`), its services, top-level
messages (`Messages()`) and all messages (`AllMessages()`). -/
structure File where
  name : String
  protoPackage : String
  goPackage : String
  importPath : String
  services : List Service
  messages : List Message
  allMessages : List Message
  deriving DecidableEq, Repr

/-! ## `getHandler` -/

/-- The function `getHandler` (lines 86-109); `none` is the Go `nil`. -/
def getHandler (m : Method) : Option handler :=
  match m.http with
  | none => none
  | some ext =>
    if ext.get ≠ "" then
      some { method := "GET", pattern := ext.get, body := ext.body }
    else if ext.post ≠ "" then
      some { method := "POST", pattern := ext.post, body := ext.body }
    else if ext.put ≠ "" then
      some { method := "PUT", pattern := ext.put, body := ext.body }
    else if ext.patch ≠ "" then
      some { method := "PATCH", pattern := ext.patch, body := ext.body }
    else if ext.delete ≠ "" then
      some { method := "DELETE", pattern := ext.delete, body := ext.body }
    else none

/-- The template function `handlerMethod` (lines 120-122). It reads a field through the
pointer `getHandler` returns, so it fails (`none`: nil pointer dereference) when that is
`nil`. -/
def handlerMethod (m : Method) : Option String :=
  match getHandler m with
  | none => none
  | some h => some h.method

/-- The template function `handlerPattern` (lines 124-126), failing like `handlerMethod`. -/
def handlerPattern (m : Method) : Option String :=
  match getHandler m with
  | none => none
  | some h => some h.pattern

/-- The template function `handlerBody` (lines 128-130), failing like `handlerMethod`. -/
def handlerBody (m : Method) : Option String :=
  match getHandler m with
  | none => none
  | some h => some h.body

/-- The template function `handlerPrefix` (lines 132-134). -/
def handlerPrefix (_m : Method) : String := ""

/-! ## The module state and the alias table -/

/-- The mutable fields of `MicroWebModule` that the template functions touch. -/
structure MicroWebModule where
  eimp : GoMap
  pconv : GoMap
  deriving DecidableEq, Repr

/-- The maps as `InitContext` sets them (lines 51-54). -/
def InitContext : MicroWebModule :=
  { eimp := []
    pconv := [("google.golang.org/protobuf/types/known/emptypb",
               "github.com/golang/protobuf/ptypes/empty")] }

/-- The rewrite both alias functions start with (lines 148-150 and 167-169):
`if value, exists := p.pconv[arg]; exists { arg = value }`. -/
def convPath (p : MicroWebModule) (arg : String) : String :=
  match mapGet p.pconv arg with
  | some value => value
  | none => arg

/-- The alias computed for a path that is not yet in the table (lines 153-159). -/
def newAlias (arg : String) : String :=
  let parts := stringsSplit arg '/'
  let length := parts.length
  if length < 2 then arg else stringsJoinEmpty (parts.drop (length - 2))

/-- One turn of the loop of `extraImports` (lines 147-162). -/
def extraImportsStep (p : MicroWebModule) (arg : String) : MicroWebModule :=
  let arg := convPath p arg
  match mapGet p.eimp arg with
  | some _ => p
  | none => { p with eimp := mapSet p.eimp arg (newAlias arg) }

/-- The method `extraImports` (lines 144-164) as a state change; the map it returns is the
field `eimp` of the resulting state (Go maps are references). -/
def extraImports (p : MicroWebModule) (args : List String) : MicroWebModule :=
  args.foldl extraImportsStep p

/-- The method `getExtraImportAlias` (lines 166-172); reading a missing key of a Go map
gives `""`. -/
def getExtraImportAlias (p : MicroWebModule) (arg : String) : String :=
  (mapGet p.eimp (convPath p arg)).getD ""

/-! ## `Execute` and `generate` -/

/-- The artifact `AddGeneratorTemplateFile(name, p.tpl, f)` records: the output name and the
file the template will be executed on. -/
structure Artifact where
  name : String
  data : File
  deriving DecidableEq, Repr

/-- The method `generate` (lines 111-118) on the list of artifacts added so far. `outName f`
stands for `p.ctx.OutputPath(f).SetExt(".web.go").String()`, which `pgs` computes. -/
def generate (outName : File → String) (artifacts : List Artifact) (f : File) :
    List Artifact :=
  if f.messages.length = 0 then artifacts
  else artifacts ++ [{ name := outName f, data := f }]

/-- The set `ignored_packages` built by lines 64-71: the keys set to `true`. -/
def ignoredPackages (params : GoMap) : List String :=
  match mapGet params "ignore_packages" with
  | some value => stringsSplit value ';'
  | none => []

/-- The method `Execute` (lines 63-84): `params` are the plugin parameters, `targets` the
target files in the order the loop visits them; the result is `p.Artifacts()`. -/
def Execute (outName : File → String) (params : GoMap) (targets : List File) :
    List Artifact :=
  let ignored_packages := ignoredPackages params
  targets.foldl
    (fun artifacts t =>
      if ¬ t.protoPackage ∈ ignored_packages then generate outName artifacts t
      else artifacts)
    []

/-! ## The text the template emits

The Go text of a handler is kept as a tree of statements; expressions that the theorems below do
not look into are kept as their source text. -/

/-- The expressions of the emitted Go text. `envelope` is the literal
`&struct { Reason string; Code int32; Detail string; Status string; Success bool }{...}`
with the five field values in that order. -/
inductive GoExpr where
  | text (src : String)
  | envelope (reason code detail status success : String)
  deriving DecidableEq, Repr

/-- The statements of the emitted Go text. -/
inductive Stmt where
  /-- The text `lhs := rhs`. -/
  | define (lhs : String) (rhs : GoExpr)
  /-- The text `var name type`. -/
  | declare (name type : String)
  /-- The text `lhs = rhs`. -/
  | assign (lhs rhs : String)
  /-- A comment line. -/
  | comment (text : String)
  /-- The text `render.Status(r, code)`. -/
  | renderStatus (code : String)
  /-- The text `render.JSON(w, r, value)`. -/
  | renderJSON (value : GoExpr)
  /-- The text `render.NoContent(w, r)`. -/
  | renderNoContent
  /-- The text `return`. -/
  | ret
  /-- The text `if err := call; err != nil { body }`. -/
  | ifErr (call : String) (body : List Stmt)
  /-- The text `if cond { thn } else { els }`; without `else` when `els` is empty. -/
  | ifElse (cond : String) (thn els : List Stmt)
  /-- The text `for vars := range over { body }`. -/
  | forRange (vars over : String) (body : List Stmt)
  deriving Repr

/-- One emitted handler function `func (h *web<Svc>Handler) <name>(w, r) { body }`. -/
structure HandlerFunc where
  service : String
  name : String
  body : List Stmt
  deriving Repr

/-- One emitted line `r.MethodFunc("<verb>", "<path>", handler.<handlerName>)`. -/
structure Registration where
  verb : String
  path : String
  handlerName : String
  deriving DecidableEq, Repr

/-- What the template emits for one service: the wrapper type `web<name>Handler` with its
`ServeHTTP`, the handler functions, and `Register<name>Web` with its registration list. -/
structure ServiceCode where
  name : String
  handlers : List HandlerFunc
  registrations : List Registration
  deriving Repr

/-- What the template emits for one message: the variables `<marshaler>` and `<unmarshaler>`
and the methods `MarshalJSON`, `UnmarshalJSON` of `<name>`. -/
structure AdapterCode where
  name : String
  marshaler : String
  unmarshaler : String
  deriving DecidableEq, Repr

/-- The emitted file: header (source name, package), the lines of the import block that are
present only with services, the lines `<alias> "<path>"` of the import block, the services
and the JSON adapters. -/
structure FileCode where
  source : String
  package : String
  serviceImports : List String
  extraImportLines : List (String × String)
  services : List ServiceCode
  adapters : List AdapterCode
  deriving Repr

/-! ## Executing `microwebTpl` on a file -/

/-- Registration of the foreign imports of one method (lines 182-187). Inside
`range .Methods` the field `.File` is the file that declares the method, the file `f` the
template is executed on. -/
def registerMethodImports (f : File) (p : MicroWebModule) (m : Method) : MicroWebModule :=
  let p := if m.input.importPath ≠ f.importPath then extraImports p [m.input.importPath] else p
  if m.output.importPath ≠ f.importPath then extraImports p [m.output.importPath] else p

/-- The opening of the template (lines 179-189): `$imports := extraImports`, then the two
nested ranges over the services and their methods. -/
def registerImports (p : MicroWebModule) (f : File) : MicroWebModule :=
  f.services.foldl (fun p svc => svc.methods.foldl (registerMethodImports f) p)
    (extraImports p [])

/-- Byte order of two keys, the order in which `text/template` visits a map with string
keys. -/
def keyLe : List Char → List Char → Bool
  | [], _ => true
  | _ :: _, [] => false
  | a :: as, b :: bs =>
    if a.toNat < b.toNat then true
    else if b.toNat < a.toNat then false
    else keyLe as bs

/-- The lines `<alias> "<path>"` that `range $key, $value := $imports` emits (lines
206-208), as pairs (alias, path). -/
def extraImportLines (p : MicroWebModule) : List (String × String) :=
  (List.insertionSort (fun a b : String × String => keyLe a.1.toList b.1.toList = true)
    p.eimp).map (fun kv => (kv.2, kv.1))

/-- The lines of the import block guarded by `gt (len .Services) 0` (lines 194-197 and
200-205). -/
def serviceImports (f : File) : List String :=
  if f.services.length > 0 then
    ["strings", "net/http", "go-micro.dev/v4/errors", "github.com/mitchellh/mapstructure",
     "github.com/cinience/render", "github.com/go-chi/chi/v5"]
  else []

/-- The value holder `&<alias>.<Name>{}` or `&<Name>{}` (lines 223-232). -/
def holder (p : MicroWebModule) (f : File) (msg : Message) : GoExpr :=
  if msg.importPath ≠ f.importPath then
    .text ("&" ++ getExtraImportAlias p msg.importPath ++ "." ++ msg.name ++ "\x7b\x7d")
  else .text ("&" ++ msg.name ++ "\x7b\x7d")

/-- The body of each of the four decode failure branches (lines 238-247, 255-263, 271-280
and 284-293, four copies of the same text). -/
def parseFailed : List Stmt :=
  [ .renderStatus "http.StatusOK",
    .renderJSON
      (.envelope "\"ParseRequestFailed\"" "http.StatusBadRequest" "err.Error()" "\"\"" "false"),
    .ret ]

/-- The request decoding (lines 234-296). -/
def decodeStmts (p : MicroWebModule) (m : Method) : List Stmt :=
  if getExtraImportAlias p m.input.importPath ≠ "ptypesempty" then
    [ .define "contentType" (.text "r.Header.Get(\"Content-Type\")"),
      .ifElse "strings.Contains(contentType, \"application/x-www-form-urlencoded\")"
        [ .ifErr "r.ParseForm()" parseFailed,
          .define "m" (.text "make(map[string]interface\x7b\x7d)"),
          .forRange "k, _" "r.Form"
            [ .define "v" (.text "r.Form.Get(k)"),
              .ifElse "strings.HasPrefix(v, \"\x7b\") && json.Valid([]byte(v))"
                [ .declare "vv" "map[string]interface\x7b\x7d",
                  .ifErr "json.Unmarshal([]byte(v), &vv)" parseFailed,
                  .assign "m[k]" "vv" ]
                [ .assign "m[k]" "v" ] ],
          .ifErr "mapstructure.WeakDecode(m, &req)" parseFailed ]
        [ .ifElse "strings.Contains(contentType, \"application/json\")"
            [ .ifErr "json.NewDecoder(r.Body).Decode(&req)" parseFailed ]
            [] ] ]
  else []

/-- The call `h.h.<name>(r.Context(), req, resp)` the business logic is invoked with. -/
def businessCall (m : Method) : String :=
  "h.h." ++ m.name ++ "(r.Context(), req, resp)"

/-- The body of the error branch of the business logic call (lines 303-314). -/
def businessFailed : List Stmt :=
  [ .define "status" (.text "errors.FromError(err)"),
    .define "rst" (.envelope "status.Id" "status.Code" "status.Detail" "status.Status" "false"),
    .comment "render.Status(r, int(status.Code))",
    .renderStatus "http.StatusBadRequest",
    .renderJSON (.text "rst"),
    .ret ]

/-- The two lines each of the five blocks of lines 318-337 consists of. -/
def okResponse : List Stmt :=
  [ .renderStatus "http.StatusOK", .renderJSON (.text "resp") ]

/-- One block `if eq (handlerMethod .) "<verb>"` of lines 318-337; it fails when
`handlerMethod` does. -/
def verbResponse (m : Method) (verb : String) : Option (List Stmt) :=
  match handlerMethod m with
  | none => none
  | some v => some (if v = verb then okResponse else [])

/-- The success response (lines 317-341). -/
def successStmts (p : MicroWebModule) (m : Method) : Option (List Stmt) :=
  if getExtraImportAlias p m.output.importPath ≠ "ptypesempty" then
    match verbResponse m "POST", verbResponse m "DELETE", verbResponse m "PATCH",
      verbResponse m "PUT", verbResponse m "GET" with
    | some a, some b, some c, some d, some e => some (a ++ b ++ c ++ d ++ e)
    | _, _, _, _, _ => none
  else some [ .renderStatus "http.StatusNoContent", .renderNoContent ]

/-- The handler function of one method (lines 222-342); `none` when the execution of the
template fails inside it. -/
def handlerFunc (p : MicroWebModule) (f : File) (svc : Service) (m : Method) :
    Option HandlerFunc :=
  match successStmts p m with
  | none => none
  | some success =>
    some { service := svc.name
           name := m.name
           body := [ .define "req" (holder p f m.input), .define "resp" (holder p f m.output) ]
                   ++ decodeStmts p m
                   ++ [ .ifErr (businessCall m) businessFailed ]
                   ++ success }

/-- The range over the methods of lines 221-343: one handler function per method. -/
def handlerFuncs (p : MicroWebModule) (f : File) (svc : Service) :
    List Method → Option (List HandlerFunc)
  | [] => some []
  | m :: ms =>
    match handlerFunc p f svc m with
    | none => none
    | some h =>
      match handlerFuncs p f svc ms with
      | none => none
      | some hs => some (h :: hs)

/-- The range over the methods inside `Register<Service>Web` (lines 351-353). -/
def registrations : List Method → Option (List Registration)
  | [] => some []
  | m :: ms =>
    if m.serverStreaming then registrations ms
    else
      match handlerMethod m, handlerPattern m with
      | some verb, some pattern =>
        match registrations ms with
        | none => none
        | some rest =>
          some ({ verb := verb, path := handlerPrefix m ++ pattern, handlerName := m.name }
            :: rest)
      | _, _ => none

/-- The text emitted for one service (lines 212-354). -/
def serviceCode (p : MicroWebModule) (f : File) (svc : Service) : Option ServiceCode :=
  match handlerFuncs p f svc svc.methods with
  | none => none
  | some handlers =>
    match registrations svc.methods with
    | none => none
    | some regs => some { name := svc.name, handlers := handlers, registrations := regs }

/-- The range over the services of lines 211-356. -/
def serviceCodes (p : MicroWebModule) (f : File) : List Service → Option (List ServiceCode)
  | [] => some []
  | svc :: svcs =>
    match serviceCode p f svc with
    | none => none
    | some c =>
      match serviceCodes p f svcs with
      | none => none
      | some cs => some (c :: cs)

/-- The adapter emitted for one message (lines 358-396), with the template functions
`marshaler` and `unmarshaler` (lines 136-142). -/
def adapterCode (m : Message) : AdapterCode :=
  { name := m.goName
    marshaler := m.goName ++ "JSONMarshaler"
    unmarshaler := m.goName ++ "JSONUnmarshaler" }

/-- Executing `microwebTpl` on the file `f` with the module in state `p`: the state it
leaves behind and the emitted file, `none` when a template function fails. -/
def executeTemplate (p : MicroWebModule) (f : File) : MicroWebModule × Option FileCode :=
  let p := registerImports p f
  (p,
    match serviceCodes p f f.services with
    | none => none
    | some svcs =>
      some { source := f.name
             package := f.goPackage
             serviceImports := serviceImports f
             extraImportLines := extraImportLines p
             services := svcs
             adapters := f.allMessages.map adapterCode })

/-- The run after `Execute`: `pgs` renders the artifacts one after the other with the same
module, so the state one render leaves is the state the next one starts from. The first
render that fails ends the run with no output at all (`none`); otherwise the result is the
emitted file of every artifact, by name. -/
def renderArtifacts (p : MicroWebModule) : List Artifact → Option (List (String × FileCode))
  | [] => some []
  | a :: rest =>
    match executeTemplate p a.data with
    | (_, none) => none
    | (p', some code) =>
      match renderArtifacts p' rest with
      | none => none
      | some out => some ((a.name, code) :: out)

/-! ## The words of the specification, for comparison with the code -/

/-- The five (verb, pattern) slots of a rule in the priority order of the specification. -/
def specSlots (ext : HttpRule) : List (String × String) :=
  [("GET", ext.get), ("POST", ext.post), ("PUT", ext.put), ("PATCH", ext.patch),
   ("DELETE", ext.delete)]

/-- The extraction of the specification: the first slot whose pattern is non-empty, paired
with the shared body selector. -/
def specExtract (ext : HttpRule) : Option handler :=
  ((specSlots ext).find? (fun slot => decide (slot.2 ≠ ""))).map
    (fun slot => { method := slot.1, pattern := slot.2, body := ext.body })

/-- The canonical empty marker of the specification: the message `Empty` of the well-known
empty package, under its legacy path or the modern path the conversion map rewrites. -/
def specIsEmptyMarker (msg : Message) : Prop :=
  msg.name = "Empty"
  ∧ convPath InitContext msg.importPath = "github.com/golang/protobuf/ptypes/empty"

instance (msg : Message) : Decidable (specIsEmptyMarker msg) := by
  unfold specIsEmptyMarker
  infer_instance

/-! ## Reading the emitted text -/

mutual
/-- The error branches `if err := call; err != nil { body }` of a statement, each with its
call, in the order of the text, those nested in other statements included. -/
def Stmt.errBranches : Stmt → List (String × List Stmt)
  | .ifErr call body => (call, body) :: errBranchesOf body
  | .ifElse _ thn els => errBranchesOf thn ++ errBranchesOf els
  | .forRange _ _ body => errBranchesOf body
  | _ => []
/-- The error branches of a list of statements. -/
def errBranchesOf : List Stmt → List (String × List Stmt)
  | [] => []
  | s :: rest => s.errBranches ++ errBranchesOf rest
end

/-- The values of the `net/http` status constants the template uses. -/
def httpStatus (code : String) : Option Nat :=
  if code = "http.StatusOK" then some 200
  else if code = "http.StatusNoContent" then some 204
  else if code = "http.StatusBadRequest" then some 400
  else none

/-- One response written by a handler: the status code expression it is sent with (`none`
when no `render.Status` came before) and the value rendered as JSON (`none` for an empty
body). -/
structure Written where
  status : Option String
  value : Option GoExpr
  deriving DecidableEq, Repr

/-- The value of an expression that is the name of a variable defined earlier in the
block. -/
def resolve (vars : List (String × GoExpr)) : GoExpr → GoExpr
  | .text src =>
    match vars.find? (fun d => decide (d.1 = src)) with
    | some d => d.2
    | none => .text src
  | e => e

/-- The responses a block without nested statements writes when it runs, up to its first
`return`: `render.Status` records the status of the request, `render.JSON` writes a value
with the recorded status, `render.NoContent` writes status `http.StatusNoContent` and no
body. `status` is the status recorded so far, `vars` the variables defined so far. -/
def written : List Stmt → Option String → List (String × GoExpr) → List Written
  | [], _, _ => []
  | .renderStatus code :: rest, _, vars => written rest (some code) vars
  | .define lhs rhs :: rest, status, vars => written rest status ((lhs, rhs) :: vars)
  | .renderJSON value :: rest, status, vars =>
    { status := status, value := some (resolve vars value) } :: written rest status vars
  | .renderNoContent :: rest, status, vars =>
    { status := some "http.StatusNoContent", value := none } :: written rest status vars
  | .ret :: _, _, _ => []
  | _ :: rest, status, vars => written rest status vars

/-- The states the module can be in during a run: the conversion map is the one
`InitContext` sets, and every alias in the table is the one computed from its key. -/
def Coherent (p : MicroWebModule) : Prop :=
  p.pconv = InitContext.pconv ∧ ∀ k v, mapGet p.eimp k = some v → v = newAlias k

/-- The state `q` has the conversion map of `p` and every entry of the alias table of
`p`. -/
def Keeps (p q : MicroWebModule) : Prop :=
  q.pconv = p.pconv ∧ ∀ k v, mapGet p.eimp k = some v → mapGet q.eimp k = some v

/-! ## Example files -/

/-- The message `HelloRequest` of the greeter package. -/
def helloRequest : Message :=
  { name := "HelloRequest", goName := "HelloRequest", importPath := "example.com/greeter" }

/-- The message `HelloReply` of the greeter package. -/
def helloReply : Message :=
  { name := "HelloReply", goName := "HelloReply", importPath := "example.com/greeter" }

/-- A method `SayHello` whose rule sets both the GET and the POST pattern. -/
def sayHelloGetPost : Method :=
  { name := "SayHello"
    input := helloRequest
    output := helloReply
    serverStreaming := false
    http := some { get := "/v1/hello/\x7bname\x7d", post := "/v1/hello", put := "",
                   patch := "", delete := "", body := "*" } }

/-- The method `SayHello` bound to `GET /v1/hello/{name}`. -/
def sayHello : Method :=
  { name := "SayHello"
    input := helloRequest
    output := helloReply
    serverStreaming := false
    http := some { get := "/v1/hello/\x7bname\x7d", post := "", put := "", patch := "",
                   delete := "", body := "" } }

/-- A server-streaming method with a valid binding. -/
def watchHello : Method :=
  { name := "WatchHello"
    input := helloRequest
    output := helloReply
    serverStreaming := true
    http := some { get := "/v1/watch", post := "", put := "", patch := "", delete := "",
                   body := "" } }

/-- A method without any HTTP rule. -/
def ping : Method :=
  { name := "Ping"
    input := helloRequest
    output := helloReply
    serverStreaming := false
    http := none }

/-- A file with the given services and the two messages of the greeter. -/
def greeterFile (services : List Service) : File :=
  { name := "greeter"
    protoPackage := "greeter"
    goPackage := "greeter"
    importPath := "example.com/greeter"
    services := services
    messages := [helloRequest, helloReply]
    allMessages := [helloRequest, helloReply] }

/-- The message `Receipt` of the billing package. -/
def receipt : Message :=
  { name := "Receipt", goName := "Receipt", importPath := "example.com/billing" }

/-- A file of the package `billing` whose only method takes its input from another
package. -/
def billingFile : File :=
  { name := "billing"
    protoPackage := "billing"
    goPackage := "billing"
    importPath := "example.com/billing"
    services :=
      [ { name := "Billing"
          methods :=
            [ { name := "Charge"
                input := { name := "Money", goName := "Money",
                           importPath := "example.com/common/money" }
                output := receipt
                serverStreaming := false
                http := some { get := "", post := "/v1/charge", put := "", patch := "",
                               delete := "", body := "*" } } ] } ]
    messages := [receipt]
    allMessages := [receipt] }

/-- A file without messages. -/
def emptyFile : File :=
  { name := "empty"
    protoPackage := "misc"
    goPackage := "misc"
    importPath := "example.com/misc"
    services := []
    messages := []
    allMessages := [] }

/-- A method bound to GET whose output is a message `Thing` of a package that is not the
well-known empty package but whose path ends in the same two segments. -/
def getThing : Method :=
  { name := "GetThing"
    input := helloRequest
    output := { name := "Thing", goName := "Thing", importPath := "example.com/ptypes/empty" }
    serverStreaming := false
    http := some { get := "/v1/thing", post := "", put := "", patch := "", delete := "",
                   body := "" } }

/-! ## Lemmas on maps and on splitting -/

theorem mapGet_mapSet_self (m : GoMap) (k v : String) : mapGet (mapSet m k v) k = some v := by
  induction m with
  | nil => simp [mapSet, mapGet]
  | cons e rest ih =>
    obtain ⟨k', v'⟩ := e
    by_cases h : k' = k
    · simp [mapSet, mapGet, h]
    · simp [mapSet, mapGet, h, ih]

theorem mapGet_mapSet_of_ne (m : GoMap) (k v k₂ : String) (hne : k ≠ k₂) :
    mapGet (mapSet m k v) k₂ = mapGet m k₂ := by
  induction m with
  | nil => simp [mapSet, mapGet, hne]
  | cons e rest ih =>
    obtain ⟨k', v'⟩ := e
    by_cases h : k' = k
    · subst h
      simp [mapSet, mapGet, hne]
    · by_cases h₂ : k' = k₂
      · subst h₂
        simp [mapSet, mapGet, h]
      · simp [mapSet, mapGet, h, h₂, ih]

theorem mapSet_of_absent (m : GoMap) (k v : String) (habs : mapGet m k = none) :
    mapSet m k v = m ++ [(k, v)] := by
  induction m with
  | nil => simp [mapSet]
  | cons e rest ih =>
    obtain ⟨k', v'⟩ := e
    by_cases h : k' = k
    · simp [mapGet, h] at habs
    · simp only [mapGet, h, if_false] at habs
      simp [mapSet, h, ih habs]

theorem splitChars_of_not_mem (sep : Char) (a : List Char) (ha : sep ∉ a) :
    splitChars sep a = [a] := by
  induction a with
  | nil => rfl
  | cons c cs ih =>
    have hc : c ≠ sep := fun h => ha (by simp [h])
    have hcs : sep ∉ cs := fun h => ha (by simp [h])
    simp [splitChars, hc, ih hcs]

theorem splitChars_append_sep (sep : Char) (a rest : List Char) (ha : sep ∉ a) :
    splitChars sep (a ++ sep :: rest) = a :: splitChars sep rest := by
  induction a with
  | nil => simp [splitChars]
  | cons c cs ih =>
    have hc : c ≠ sep := fun h => ha (by simp [h])
    have hcs : sep ∉ cs := fun h => ha (by simp [h])
    simp [splitChars, hc, ih hcs]

theorem splitChars_joined (sep : Char) (segs : List (List Char)) (a : List Char)
    (ha : sep ∉ a) (hsegs : ∀ x ∈ segs, sep ∉ x) :
    splitChars sep (a ++ (segs.map (fun x => sep :: x)).flatten) = a :: segs := by
  induction segs generalizing a with
  | nil => simpa using splitChars_of_not_mem sep a ha
  | cons b bs ih =>
    have hb : sep ∉ b := hsegs b (by simp)
    have hbs : ∀ x ∈ bs, sep ∉ x := fun x hx => hsegs x (by simp [hx])
    have := ih b hb hbs
    simp only [List.map_cons, List.flatten_cons, List.cons_append]
    rw [splitChars_append_sep sep a _ ha, this]

theorem intercalate_go_data (acc sep : String) (l : List String) :
    (String.intercalate.go acc sep l).data =
      acc.data ++ (l.map (fun a => sep.data ++ a.data)).flatten := by
  induction l generalizing acc with
  | nil => simp [String.intercalate.go]
  | cons a as ih => simp [String.intercalate.go, ih, String.data_append]

/-- Splitting undoes joining: a non-empty list of segments free of the separator is what
`stringsSplit` returns on the segments joined by the separator. -/
theorem stringsSplit_intercalate (sep : Char) (segs : List String) (hne : segs ≠ [])
    (hfree : ∀ s ∈ segs, sep ∉ s.toList) :
    stringsSplit ((String.singleton sep).intercalate segs) sep = segs := by
  cases segs with
  | nil => exact absurd rfl hne
  | cons a as =>
    have ha : sep ∉ a.data := hfree a (by simp)
    have has : ∀ x ∈ as.map String.data, sep ∉ x := by
      intro x hx
      obtain ⟨y, hy, rfl⟩ := List.mem_map.1 hx
      exact hfree y (by simp [hy])
    have hd : ((String.singleton sep).intercalate (a :: as)).data
        = a.data ++ ((as.map String.data).map (fun x => sep :: x)).flatten := by
      simp [String.intercalate, intercalate_go_data, String.singleton, List.map_map,
        Function.comp_def]
    simp only [stringsSplit, String.toList, hd]
    rw [splitChars_joined sep _ a.data ha has]
    simp [List.map_map, Function.comp_def]

theorem extraImports_single (p : MicroWebModule) (arg : String) :
    extraImports p [arg] = extraImportsStep p arg := rfl

theorem extraImportsStep_pconv (p : MicroWebModule) (arg : String) :
    (extraImportsStep p arg).pconv = p.pconv := by
  unfold extraImportsStep
  dsimp only
  split <;> rfl

theorem extraImportsStep_of_registered (q : MicroWebModule) (arg v : String)
    (h : mapGet q.eimp (convPath q arg) = some v) : extraImportsStep q arg = q := by
  unfold extraImportsStep
  simp only [h]

theorem extraImportsStep_registered (p : MicroWebModule) (arg : String) :
    ∃ v, mapGet (extraImportsStep p arg).eimp (convPath p arg) = some v := by
  unfold extraImportsStep
  dsimp only
  split
  · next v hv => exact ⟨v, hv⟩
  · exact ⟨_, mapGet_mapSet_self _ _ _⟩

/-! ## C1: the binding extractor -/

/-- C1: for every HTTP rule, `getHandler` returns the binding of the first slot with a
non-empty pattern in the order GET, POST, PUT, PATCH, DELETE, with the shared body selector
of the rule; it returns none exactly when all five patterns are empty; a rule with exactly
one slot set yields that slot; and a rule with GET and POST both set yields GET. -/
theorem getHandler_first_nonempty_slot (m : Method) (ext : HttpRule)
    (hext : m.http = some ext) :
    getHandler m = specExtract ext
    ∧ (getHandler m = none ↔
        ext.get = "" ∧ ext.post = "" ∧ ext.put = "" ∧ ext.patch = "" ∧ ext.delete = "")
    ∧ (∀ slot ∈ specSlots ext, slot.2 ≠ "" →
        (∀ other ∈ specSlots ext, other ≠ slot → other.2 = "") →
        getHandler m = some { method := slot.1, pattern := slot.2, body := ext.body })
    ∧ (ext.get ≠ "" → ext.post ≠ "" →
        getHandler m = some { method := "GET", pattern := ext.get, body := ext.body }) := by
  have hspec : getHandler m = specExtract ext := by
    unfold getHandler
    rw [hext]
    by_cases h1 : ext.get = "" <;> by_cases h2 : ext.post = "" <;>
      by_cases h3 : ext.put = "" <;> by_cases h4 : ext.patch = "" <;>
      by_cases h5 : ext.delete = "" <;>
      simp [specExtract, specSlots, List.find?, h1, h2, h3, h4, h5]
  refine ⟨hspec, ?_, ?_, ?_⟩
  · rw [hspec]
    by_cases h1 : ext.get = "" <;> by_cases h2 : ext.post = "" <;>
      by_cases h3 : ext.put = "" <;> by_cases h4 : ext.patch = "" <;>
      by_cases h5 : ext.delete = "" <;>
      simp [specExtract, specSlots, List.find?, h1, h2, h3, h4, h5]
  · intro slot hslot hset hothers
    rw [hspec]
    have hG := hothers ("GET", ext.get) (by simp [specSlots])
    have hP := hothers ("POST", ext.post) (by simp [specSlots])
    have hU := hothers ("PUT", ext.put) (by simp [specSlots])
    have hA := hothers ("PATCH", ext.patch) (by simp [specSlots])
    have hD := hothers ("DELETE", ext.delete) (by simp [specSlots])
    simp only [specSlots, List.mem_cons, List.mem_singleton, List.not_mem_nil, or_false]
      at hslot
    rcases hslot with h | h | h | h | h <;> subst h <;>
      simp_all [specExtract, specSlots, List.find?]
  · intro hget _
    rw [hspec]
    simp [specExtract, specSlots, List.find?, hget]

/-- C1 at `SayHello` with GET and POST both set: the binding is the GET one. -/
theorem getHandler_first_nonempty_slot_witness :
    getHandler sayHelloGetPost
      = some { method := "GET", pattern := "/v1/hello/\x7bname\x7d", body := "*" } :=
  (getHandler_first_nonempty_slot sayHelloGetPost
    { get := "/v1/hello/\x7bname\x7d", post := "/v1/hello", put := "", patch := "",
      delete := "", body := "*" } rfl).2.2.2 (by decide) (by decide)

/-! ## C2, C3, C4: the alias table -/

/-- C2: `extraImports` is idempotent. For every state of the module and every path, a second
call with the same path leaves the state, hence the alias table, its size and its entries,
as the first call left it, and `getExtraImportAlias` returns the same alias after either
call, the one the table holds for the converted path. -/
theorem extraImports_idempotent (p : MicroWebModule) (arg : String) :
    extraImports (extraImports p [arg]) [arg] = extraImports p [arg]
    ∧ (extraImports (extraImports p [arg]) [arg]).eimp.length
        = (extraImports p [arg]).eimp.length
    ∧ getExtraImportAlias (extraImports (extraImports p [arg]) [arg]) arg
        = getExtraImportAlias (extraImports p [arg]) arg
    ∧ mapGet (extraImports p [arg]).eimp (convPath p arg)
        = some (getExtraImportAlias (extraImports p [arg]) arg) := by
  have hconv : convPath (extraImportsStep p arg) arg = convPath p arg := by
    simp [convPath, extraImportsStep_pconv]
  obtain ⟨v, hv⟩ := extraImportsStep_registered p arg
  have hsame : extraImports (extraImports p [arg]) [arg] = extraImports p [arg] := by
    simp only [extraImports_single]
    exact extraImportsStep_of_registered _ arg v (by rw [hconv]; exact hv)
  refine ⟨hsame, by rw [hsame], by rw [hsame], ?_⟩
  simp only [extraImports_single, getExtraImportAlias, hconv, hv, Option.getD_some]

/-- C3: for every path whose converted form `c` is not yet a key of the alias table,
`extraImports` adds the entry for `c` at the end of the table, with an alias computed from
`c` alone: when `c` is the segments `segs` joined by `/`, the alias is `c` itself if there
are fewer than two segments, and the last two segments put together otherwise. -/
theorem extraImports_new_alias (p : MicroWebModule) (arg : String) (segs : List String)
    (hfresh : mapGet p.eimp (convPath p arg) = none)
    (hne : segs ≠ []) (hfree : ∀ s ∈ segs, '/' ∉ s.toList)
    (hc : convPath p arg = "/".intercalate segs) :
    (extraImports p [arg]).eimp = p.eimp ++ [(convPath p arg, newAlias (convPath p arg))]
    ∧ (extraImports p [arg]).pconv = p.pconv
    ∧ (segs.length < 2 → newAlias (convPath p arg) = convPath p arg)
    ∧ (∀ init a b, segs = init ++ [a, b] → newAlias (convPath p arg) = a ++ b) := by
  have hsplit : stringsSplit (convPath p arg) '/' = segs := by
    rw [hc]
    exact stringsSplit_intercalate '/' segs hne hfree
  refine ⟨?_, extraImportsStep_pconv p arg, ?_, ?_⟩
  · simp only [extraImports_single, extraImportsStep, hfresh]
    exact mapSet_of_absent _ _ _ hfresh
  · intro hlen
    simp [newAlias, hsplit, hlen]
  · intro init a b hseg
    have hlen : ¬ segs.length < 2 := by
      rw [hseg]
      simp
    have hdrop : segs.drop (segs.length - 2) = [a, b] := by
      rw [hseg]
      simp
    simp only [newAlias, hsplit, hlen, if_false, hdrop]
    simp [stringsJoinEmpty]
    rfl

/-- C3 at the example of the specification: from the freshly initialised module the path
`github.com/golang/protobuf/ptypes/empty` is entered with the alias `ptypesempty`. -/
theorem extraImports_new_alias_witness :
    (extraImports InitContext ["github.com/golang/protobuf/ptypes/empty"]).eimp
        = [("github.com/golang/protobuf/ptypes/empty", "ptypesempty")] := by
  have h := extraImports_new_alias InitContext "github.com/golang/protobuf/ptypes/empty"
    ["github.com", "golang", "protobuf", "ptypes", "empty"] (by decide) (by decide)
    (by decide) (by decide)
  have halias := h.2.2.2 ["github.com", "golang", "protobuf"] "ptypes" "empty" rfl
  have hconv : convPath InitContext "github.com/golang/protobuf/ptypes/empty"
      = "github.com/golang/protobuf/ptypes/empty" := by decide
  rw [h.1, halias, hconv]
  decide

/-- C4: with the conversion map of `InitContext` and any alias table, registering a path
`m` that the conversion map sends to `l` leaves the same state as registering `l`; the
alias read for `m` afterwards is the alias read for `l`; the key present afterwards is `l`,
and `m` is not entered as a key. -/
theorem extraImports_canonical (eimp : GoMap) (m l : String)
    (hm : mapGet InitContext.pconv m = some l) :
    extraImports { eimp := eimp, pconv := InitContext.pconv } [m]
        = extraImports { eimp := eimp, pconv := InitContext.pconv } [l]
    ∧ getExtraImportAlias (extraImports { eimp := eimp, pconv := InitContext.pconv } [m]) m
        = getExtraImportAlias (extraImports { eimp := eimp, pconv := InitContext.pconv } [l]) l
    ∧ (∃ v, mapGet (extraImports { eimp := eimp, pconv := InitContext.pconv } [m]).eimp l
        = some v)
    ∧ (mapGet eimp m = none →
        mapGet (extraImports { eimp := eimp, pconv := InitContext.pconv } [m]).eimp m
          = none) := by
  have hml : m = "google.golang.org/protobuf/types/known/emptypb"
      ∧ l = "github.com/golang/protobuf/ptypes/empty" := by
    simp only [InitContext, mapGet] at hm
    split at hm
    · next h => exact ⟨h.symm, by simpa using hm.symm⟩
    · exact absurd hm (by simp)
  obtain ⟨rfl, rfl⟩ := hml
  have hcm : ∀ e : GoMap, convPath { eimp := e, pconv := InitContext.pconv }
      "google.golang.org/protobuf/types/known/emptypb"
        = "github.com/golang/protobuf/ptypes/empty" := fun _ => by
    simp [convPath, InitContext, mapGet]
  have hcl : ∀ e : GoMap, convPath { eimp := e, pconv := InitContext.pconv }
      "github.com/golang/protobuf/ptypes/empty"
        = "github.com/golang/protobuf/ptypes/empty" := fun _ => by
    simp [convPath, InitContext, mapGet]
  have hsame : extraImports { eimp := eimp, pconv := InitContext.pconv }
      ["google.golang.org/protobuf/types/known/emptypb"]
        = extraImports { eimp := eimp, pconv := InitContext.pconv }
      ["github.com/golang/protobuf/ptypes/empty"] := by
    simp only [extraImports_single, extraImportsStep, hcm, hcl]
  refine ⟨hsame, ?_, ?_, ?_⟩
  · rw [hsame]
    have hp := extraImportsStep_pconv { eimp := eimp, pconv := InitContext.pconv }
      "github.com/golang/protobuf/ptypes/empty"
    simp only [getExtraImportAlias, convPath, extraImports_single, hp]
    rfl
  · have := extraImportsStep_registered { eimp := eimp, pconv := InitContext.pconv }
      "google.golang.org/protobuf/types/known/emptypb"
    rw [hcm] at this
    exact this
  · intro habs
    simp only [extraImports_single, extraImportsStep, hcm]
    split
    · exact habs
    · rw [mapGet_mapSet_of_ne _ _ _ _ (by decide)]
      exact habs

/-- C4 from the empty table: registering the modern path of the empty message stores the
legacy path as the key, as registering the legacy path does. -/
theorem extraImports_canonical_witness :
    extraImports { eimp := [], pconv := InitContext.pconv }
        ["google.golang.org/protobuf/types/known/emptypb"]
      = extraImports { eimp := [], pconv := InitContext.pconv }
        ["github.com/golang/protobuf/ptypes/empty"] :=
  (extraImports_canonical [] "google.golang.org/protobuf/types/known/emptypb"
    "github.com/golang/protobuf/ptypes/empty" (by decide)).1

/-! ## C5: which files get an artifact -/

theorem splitChars_spec (sep : Char) (cs : List Char) :
    ∃ a as, splitChars sep cs = a :: as ∧ (∀ x ∈ a :: as, sep ∉ x)
      ∧ a ++ (as.map (fun x => sep :: x)).flatten = cs := by
  induction cs with
  | nil => exact ⟨[], [], rfl, by simp, rfl⟩
  | cons c cs ih =>
    obtain ⟨a, as, heq, hfree, hjoin⟩ := ih
    by_cases hc : c = sep
    · refine ⟨[], a :: as, by simp [splitChars, hc, heq], ?_, ?_⟩
      · intro x hx
        rcases List.mem_cons.1 hx with h | h
        · simp [h]
        · exact hfree x h
      · simp [hjoin, hc]
    · refine ⟨c :: a, as, by simp [splitChars, hc, heq], ?_, ?_⟩
      · intro x hx
        rcases List.mem_cons.1 hx with h | h
        · subst h
          have ha := hfree a (by simp)
          simp only [List.mem_cons, not_or]
          exact ⟨fun h => hc h.symm, ha⟩
        · exact hfree x (by simp [h])
      · simp [hjoin]

/-- Every string is the join of the segments `stringsSplit` cuts it into, none of which
holds the separator. -/
theorem intercalate_stringsSplit (sep : Char) (value : String) :
    stringsSplit value sep ≠ [] ∧ (∀ s ∈ stringsSplit value sep, sep ∉ s.toList)
      ∧ (String.singleton sep).intercalate (stringsSplit value sep) = value := by
  obtain ⟨a, as, heq, hfree, hjoin⟩ := splitChars_spec sep value.toList
  refine ⟨by simp [stringsSplit, String.toList] at heq ⊢; simp [heq], ?_, ?_⟩
  · intro s hs
    simp only [stringsSplit, List.mem_map] at hs
    obtain ⟨x, hx, rfl⟩ := hs
    rw [heq] at hx
    exact hfree x hx
  · apply String.ext
    simp only [stringsSplit, heq, List.map_cons, String.intercalate, intercalate_go_data,
      String.singleton, List.map_map, Function.comp_def]
    simpa using hjoin

theorem Execute_fold_mem (outName : File → String) (ignored : List String)
    (targets : List File) (acc : List Artifact) (f : File) :
    (∃ a ∈ targets.foldl
        (fun artifacts t =>
          if ¬ t.protoPackage ∈ ignored then generate outName artifacts t else artifacts)
        acc, a.data = f)
      ↔ (∃ a ∈ acc, a.data = f)
        ∨ (f ∈ targets ∧ f.protoPackage ∉ ignored ∧ f.messages ≠ []) := by
  induction targets generalizing acc with
  | nil => simp
  | cons t ts ih =>
    rw [List.foldl_cons, ih]
    by_cases hig : t.protoPackage ∈ ignored
    · simp only [hig, not_true_eq_false, if_false, List.mem_cons]
      constructor
      · rintro (h | ⟨h1, h2, h3⟩)
        · exact Or.inl h
        · exact Or.inr ⟨Or.inr h1, h2, h3⟩
      · rintro (h | ⟨h1 | h1, h2, h3⟩)
        · exact Or.inl h
        · subst h1
          exact absurd hig h2
        · exact Or.inr ⟨h1, h2, h3⟩
    · by_cases hmsg : t.messages = []
      · simp only [hig, not_false_eq_true, if_true, generate, hmsg, List.length_nil,
          List.mem_cons]
        constructor
        · rintro (h | ⟨h1, h2, h3⟩)
          · exact Or.inl h
          · exact Or.inr ⟨Or.inr h1, h2, h3⟩
        · rintro (h | ⟨h1 | h1, h2, h3⟩)
          · exact Or.inl h
          · subst h1
            exact absurd hmsg h3
          · exact Or.inr ⟨h1, h2, h3⟩
      · have hlen : ¬ t.messages.length = 0 := by
          simpa [List.length_eq_zero] using hmsg
        simp only [hig, not_false_eq_true, if_true, generate, hlen, if_false, List.mem_cons,
          List.mem_append, List.not_mem_nil, or_false]
        constructor
        · rintro (⟨a, ha | ha, hd⟩ | ⟨h1, h2, h3⟩)
          · exact Or.inl ⟨a, ha, hd⟩
          · subst ha
            simp only at hd
            subst hd
            exact Or.inr ⟨Or.inl rfl, hig, hmsg⟩
          · exact Or.inr ⟨Or.inr h1, h2, h3⟩
        · rintro (⟨a, ha, hd⟩ | ⟨h1 | h1, h2, h3⟩)
          · exact Or.inl ⟨a, Or.inl ha, hd⟩
          · subst h1
            exact Or.inl ⟨_, Or.inr rfl, rfl⟩
          · exact Or.inr ⟨h1, h2, h3⟩

/-- C5: for every list of target files and every setting of the parameters, `Execute` adds
an artifact for a file exactly when the file is a target, its package name is not among the
ignored packages and it has at least one message. With `ignore_packages` set to `value`,
the ignored packages are the entries of `value` between the semicolons: `value` is these
entries joined by `;`, and any list of entries free of `;` is what its join is read back
as. Without the parameter no package is ignored. -/
theorem Execute_artifact_iff (outName : File → String) (params : GoMap)
    (targets : List File) (f : File) :
    ((∃ a ∈ Execute outName params targets, a.data = f) ↔
        f ∈ targets ∧ f.protoPackage ∉ ignoredPackages params ∧ f.messages ≠ [])
    ∧ (∀ value, mapGet params "ignore_packages" = some value →
        ignoredPackages params ≠ []
        ∧ (∀ s ∈ ignoredPackages params, ';' ∉ s.toList)
        ∧ ";".intercalate (ignoredPackages params) = value
        ∧ ∀ segs : List String, segs ≠ [] → (∀ s ∈ segs, ';' ∉ s.toList) →
            value = ";".intercalate segs → ignoredPackages params = segs)
    ∧ (mapGet params "ignore_packages" = none → ignoredPackages params = []) := by
  refine ⟨?_, ?_, ?_⟩
  · have h := Execute_fold_mem outName (ignoredPackages params) targets [] f
    simpa [Execute] using h
  · intro value hval
    have hig : ignoredPackages params = stringsSplit value ';' := by
      simp [ignoredPackages, hval]
    rw [hig]
    obtain ⟨h1, h2, h3⟩ := intercalate_stringsSplit ';' value
    refine ⟨h1, h2, h3, ?_⟩
    intro segs hne hfree hjoin
    rw [hjoin]
    exact stringsSplit_intercalate ';' segs hne hfree
  · intro hnone
    simp [ignoredPackages, hnone]

/-- C5 with `ignore_packages=billing;internal`: of the three targets only the greeter file
gets an artifact; `billingFile` is in an ignored package and `emptyFile` has no message. -/
theorem Execute_artifact_iff_witness :
    (∃ a ∈ Execute (fun f => f.name ++ ".web.go") [("ignore_packages", "billing;internal")]
        [billingFile, emptyFile, greeterFile []], a.data = greeterFile [])
    ∧ (¬ ∃ a ∈ Execute (fun f => f.name ++ ".web.go")
        [("ignore_packages", "billing;internal")]
        [billingFile, emptyFile, greeterFile []], a.data = billingFile)
    ∧ (¬ ∃ a ∈ Execute (fun f => f.name ++ ".web.go")
        [("ignore_packages", "billing;internal")]
        [billingFile, emptyFile, greeterFile []], a.data = emptyFile) := by
  refine ⟨?_, ?_, ?_⟩
  · exact (Execute_artifact_iff _ _ _ _).1.2 (by decide)
  · exact fun h => absurd ((Execute_artifact_iff _ _ _ _).1.1 h) (by decide)
  · exact fun h => absurd ((Execute_artifact_iff _ _ _ _).1.1 h) (by decide)

/-! ## The alias table only grows -/

theorem foldl_inv {α σ : Type} (P : σ → Prop) (step : σ → α → σ)
    (hstep : ∀ s x, P s → P (step s x)) (xs : List α) (s : σ) (hs : P s) :
    P (xs.foldl step s) := by
  induction xs generalizing s with
  | nil => exact hs
  | cons x xs ih => exact ih (step s x) (hstep s x hs)

theorem foldl_reach {α σ : Type} (P Q : σ → Prop) (step : σ → α → σ) (x₀ : α)
    (hstay : ∀ s x, P s → P (step s x)) (hQ : ∀ s x, Q s → Q (step s x))
    (hat : ∀ s, Q s → P (step s x₀)) (xs : List α) (hx : x₀ ∈ xs) (s : σ) (hs : Q s) :
    P (xs.foldl step s) := by
  induction xs generalizing s with
  | nil => exact absurd hx (List.not_mem_nil _)
  | cons x xs ih =>
    rcases List.mem_cons.1 hx with h | h
    · subst h
      exact foldl_inv P step hstay xs _ (hat s hs)
    · exact ih h (step s x) (hQ s x hs)

theorem Keeps.refl (p : MicroWebModule) : Keeps p p := ⟨rfl, fun _ _ h => h⟩

theorem Keeps.trans {p q r : MicroWebModule} (h₁ : Keeps p q) (h₂ : Keeps q r) :
    Keeps p r :=
  ⟨h₂.1.trans h₁.1, fun k v h => h₂.2 k v (h₁.2 k v h)⟩

theorem convPath_of_pconv {p q : MicroWebModule} (h : q.pconv = p.pconv) (arg : String) :
    convPath q arg = convPath p arg := by
  simp [convPath, h]

theorem extraImportsStep_keeps (p : MicroWebModule) (arg : String) :
    Keeps p (extraImportsStep p arg) := by
  refine ⟨extraImportsStep_pconv p arg, ?_⟩
  intro k v hk
  unfold extraImportsStep
  dsimp only
  split
  · exact hk
  · next habs =>
    have hne : convPath p arg ≠ k := by
      intro h
      rw [h, hk] at habs
      exact absurd habs (by simp)
    simp only
    rw [mapGet_mapSet_of_ne _ _ _ _ hne]
    exact hk

theorem extraImports_keeps (p : MicroWebModule) (args : List String) :
    Keeps p (extraImports p args) :=
  foldl_inv (Keeps p) extraImportsStep
    (fun s x hs => hs.trans (extraImportsStep_keeps s x)) args p (Keeps.refl p)

theorem registerMethodImports_keeps (f : File) (p : MicroWebModule) (m : Method) :
    Keeps p (registerMethodImports f p m) := by
  unfold registerMethodImports
  dsimp only
  split <;> split
  · exact (extraImports_keeps _ _).trans (extraImports_keeps _ _)
  · exact extraImports_keeps _ _
  · exact extraImports_keeps _ _
  · exact Keeps.refl p

theorem registerMethods_keeps (f : File) (p : MicroWebModule) (ms : List Method) :
    Keeps p (ms.foldl (registerMethodImports f) p) :=
  foldl_inv (Keeps p) (registerMethodImports f)
    (fun s x hs => hs.trans (registerMethodImports_keeps f s x)) ms p (Keeps.refl p)

theorem registerImports_keeps (p : MicroWebModule) (f : File) :
    Keeps p (registerImports p f) := by
  unfold registerImports
  exact foldl_inv (Keeps p) _
    (fun s svc hs => hs.trans (registerMethods_keeps f s svc.methods)) f.services _
    (extraImports_keeps p [])

/-- A foreign input or output path of a method is a key of the table once the imports of
the method are registered. -/
theorem registerMethodImports_registered (f : File) (p : MicroWebModule) (m : Method)
    (msg : Message) (hmsg : msg = m.input ∨ msg = m.output)
    (hforeign : msg.importPath ≠ f.importPath) :
    ∃ v, mapGet (registerMethodImports f p m).eimp (convPath p msg.importPath) = some v := by
  rcases hmsg with h | h
  · subst h
    have h1 := extraImportsStep_registered p m.input.importPath
    obtain ⟨v, hv⟩ := h1
    have hk : Keeps (extraImportsStep p m.input.importPath)
        (registerMethodImports f p m) := by
      unfold registerMethodImports
      simp only [hforeign, ne_eq, not_false_eq_true, if_true, extraImports_single]
      split
      · exact extraImportsStep_keeps _ _
      · exact Keeps.refl _
    exact ⟨v, hk.2 _ _ hv⟩
  · subst h
    unfold registerMethodImports
    simp only [hforeign, ne_eq, not_false_eq_true, if_true, extraImports_single]
    split
    · have h1 := extraImportsStep_registered (extraImportsStep p m.input.importPath)
        m.output.importPath
      rw [convPath_of_pconv (extraImportsStep_pconv p _)] at h1
      exact h1
    · exact extraImportsStep_registered p m.output.importPath

/-- After the opening of the template every foreign input or output path of every method of
the file is a key of the table. -/
theorem registerImports_registered (p : MicroWebModule) (f : File) (svc : Service)
    (m : Method) (msg : Message) (hsvc : svc ∈ f.services) (hm : m ∈ svc.methods)
    (hmsg : msg = m.input ∨ msg = m.output) (hforeign : msg.importPath ≠ f.importPath) :
    ∃ v, mapGet (registerImports p f).eimp (convPath p msg.importPath) = some v := by
  unfold registerImports
  have hstay : ∀ (step : MicroWebModule → MicroWebModule), (∀ s, Keeps s (step s)) →
      ∀ s, (∃ v, mapGet s.eimp (convPath p msg.importPath) = some v) →
        ∃ v, mapGet (step s).eimp (convPath p msg.importPath) = some v := by
    intro step hstep s hs
    obtain ⟨v, hv⟩ := hs
    exact ⟨v, (hstep s).2 _ _ hv⟩
  refine foldl_reach
    (fun s : MicroWebModule => ∃ v, mapGet s.eimp (convPath p msg.importPath) = some v)
    (fun s : MicroWebModule => s.pconv = p.pconv) _ svc ?_ ?_ ?_ f.services hsvc _
    (extraImports_keeps p []).1
  · intro s x hs
    exact hstay (fun s => x.methods.foldl (registerMethodImports f) s)
      (fun s => registerMethods_keeps f s x.methods) s hs
  · intro s x hs
    exact (registerMethods_keeps f s x.methods).1.trans hs
  · intro s hs
    refine foldl_reach
      (fun s : MicroWebModule => ∃ v, mapGet s.eimp (convPath p msg.importPath) = some v)
      (fun s : MicroWebModule => s.pconv = p.pconv) _ m ?_ ?_ ?_ svc.methods hm s hs
    · intro s x hs
      exact hstay (fun s => registerMethodImports f s x)
        (fun s => registerMethodImports_keeps f s x) s hs
    · intro s x hs
      exact (registerMethodImports_keeps f s x).1.trans hs
    · intro s hs
      have := registerMethodImports_registered f s m msg hmsg hforeign
      rw [convPath_of_pconv hs] at this
      exact this

theorem extraImportsStep_coherent (p : MicroWebModule) (arg : String) (hp : Coherent p) :
    Coherent (extraImportsStep p arg) := by
  refine ⟨(extraImportsStep_pconv p arg).trans hp.1, ?_⟩
  intro k v hk
  unfold extraImportsStep at hk
  dsimp only at hk
  split at hk
  · exact hp.2 k v hk
  · by_cases hkey : convPath p arg = k
    · subst hkey
      simp only at hk
      rw [mapGet_mapSet_self] at hk
      exact (Option.some.inj hk).symm
    · simp only at hk
      rw [mapGet_mapSet_of_ne _ _ _ _ hkey] at hk
      exact hp.2 k v hk

theorem extraImports_coherent (p : MicroWebModule) (args : List String) (hp : Coherent p) :
    Coherent (extraImports p args) :=
  foldl_inv Coherent extraImportsStep (fun s x hs => extraImportsStep_coherent s x hs)
    args p hp

theorem registerMethodImports_coherent (f : File) (p : MicroWebModule) (m : Method)
    (hp : Coherent p) : Coherent (registerMethodImports f p m) := by
  unfold registerMethodImports
  dsimp only
  split <;> split
  · exact extraImports_coherent _ _ (extraImports_coherent _ _ hp)
  · exact extraImports_coherent _ _ hp
  · exact extraImports_coherent _ _ hp
  · exact hp

theorem registerImports_coherent (p : MicroWebModule) (f : File) (hp : Coherent p) :
    Coherent (registerImports p f) := by
  unfold registerImports
  exact foldl_inv Coherent _
    (fun s svc hs => foldl_inv Coherent (registerMethodImports f)
      (fun s x hs => registerMethodImports_coherent f s x hs) svc.methods s hs)
    f.services _ (extraImports_coherent p [] hp)

theorem InitContext_coherent : Coherent InitContext :=
  ⟨rfl, fun k v h => by simp [InitContext, mapGet] at h⟩

theorem executeTemplate_state (p : MicroWebModule) (f : File) :
    (executeTemplate p f).1 = registerImports p f := rfl

/-! ## C6, C7: the registration list -/

theorem registrations_spec (ms : List Method) (regs : List Registration)
    (h : registrations ms = some regs) :
    regs.map (fun r => r.handlerName)
        = (ms.filter (fun m => !m.serverStreaming)).map (fun m => m.name)
    ∧ ∀ r ∈ regs, ∃ m ∈ ms, m.serverStreaming = false ∧ ∃ hd, getHandler m = some hd
        ∧ r = { verb := hd.method, path := handlerPrefix m ++ hd.pattern,
                handlerName := m.name } := by
  induction ms generalizing regs with
  | nil =>
    simp only [registrations, Option.some.injEq] at h
    subst h
    simp
  | cons m ms ih =>
    unfold registrations at h
    by_cases hss : m.serverStreaming = true
    · simp only [hss, if_true] at h
      obtain ⟨h1, h2⟩ := ih regs h
      refine ⟨by simp [hss, h1], ?_⟩
      intro r hr
      obtain ⟨m₂, hm₂, rest⟩ := h2 r hr
      exact ⟨m₂, List.mem_cons_of_mem _ hm₂, rest⟩
    · have hss₂ : m.serverStreaming = false := by simpa using hss
      simp only [hss₂, Bool.false_eq_true, if_false] at h
      cases hg : getHandler m with
      | none => simp [handlerMethod, handlerPattern, hg] at h
      | some hd =>
        cases hrest : registrations ms with
        | none => simp [handlerMethod, handlerPattern, hg, hrest] at h
        | some rest =>
          simp only [handlerMethod, handlerPattern, hg, hrest, Option.some.injEq] at h
          subst h
          obtain ⟨h1, h2⟩ := ih rest hrest
          refine ⟨by simp [hss₂, h1], ?_⟩
          intro r hr
          rcases List.mem_cons.1 hr with hr | hr
          · exact ⟨m, List.mem_cons_self _ _, hss₂, hd, hg, hr⟩
          · obtain ⟨m₂, hm₂, more⟩ := h2 r hr
            exact ⟨m₂, List.mem_cons_of_mem _ hm₂, more⟩

theorem serviceCode_registrations (p : MicroWebModule) (f : File) (svc : Service)
    (sc : ServiceCode) (h : serviceCode p f svc = some sc) :
    registrations svc.methods = some sc.registrations := by
  unfold serviceCode at h
  split at h
  · exact absurd h (by simp)
  · split at h
    · exact absurd h (by simp)
    · next regs hregs =>
      simp only [Option.some.injEq] at h
      subst h
      exact hregs

/-- C6: in the text emitted for a service, the handler names of the registration list are
the names of the methods that are not server-streaming, in order; every entry comes from a
method that is not server-streaming and carries the binding of that method; hence a
server-streaming method, which shares its name with no other method of the service, has no
entry, whatever its binding. -/
theorem registrations_skip_server_streaming (p : MicroWebModule) (f : File) (svc : Service)
    (sc : ServiceCode) (h : serviceCode p f svc = some sc) :
    sc.registrations.map (fun r => r.handlerName)
        = (svc.methods.filter (fun m => !m.serverStreaming)).map (fun m => m.name)
    ∧ (∀ r ∈ sc.registrations, ∃ m ∈ svc.methods, m.serverStreaming = false
        ∧ ∃ hd, getHandler m = some hd
          ∧ r = { verb := hd.method, path := handlerPrefix m ++ hd.pattern,
                  handlerName := m.name })
    ∧ (∀ m ∈ svc.methods, m.serverStreaming = true →
        (∀ m₂ ∈ svc.methods, m₂.name = m.name → m₂.serverStreaming = true) →
        ∀ r ∈ sc.registrations, r.handlerName ≠ m.name) := by
  obtain ⟨h1, h2⟩ := registrations_spec svc.methods sc.registrations
    (serviceCode_registrations p f svc sc h)
  refine ⟨h1, h2, ?_⟩
  intro m _ hss huniq r hr hname
  obtain ⟨m₂, hm₂, hns, hd, _, hreq⟩ := h2 r hr
  have hn : m₂.name = m.name := by
    rw [← hname, hreq]
  have := huniq m₂ hm₂ hn
  rw [hns] at this
  exact absurd this (by simp)

/-- C6 at a service with a bound unary method and a bound server-streaming method: the
latter has no entry in the registration list. -/
theorem registrations_skip_server_streaming_witness :
    ∃ sc, serviceCode InitContext
        (greeterFile [{ name := "Greeter", methods := [sayHello, watchHello] }])
        { name := "Greeter", methods := [sayHello, watchHello] } = some sc
      ∧ sc.registrations
          = [{ verb := "GET", path := "/v1/hello/\x7bname\x7d", handlerName := "SayHello" }]
      ∧ ∀ r ∈ sc.registrations, r.handlerName ≠ watchHello.name := by
  have hsc : (serviceCode InitContext
      (greeterFile [{ name := "Greeter", methods := [sayHello, watchHello] }])
      { name := "Greeter", methods := [sayHello, watchHello] }).isSome = true := by
    rfl
  obtain ⟨sc, hsc⟩ := Option.isSome_iff_exists.1 hsc
  refine ⟨sc, hsc, ?_, ?_⟩
  · have := serviceCode_registrations _ _ _ _ hsc
    have hreg : registrations [sayHello, watchHello]
        = some [{ verb := "GET", path := "/v1/hello/\x7bname\x7d",
                  handlerName := "SayHello" }] := by decide
    simp only at this
    rw [hreg] at this
    exact (Option.some.inj this).symm
  · exact (registrations_skip_server_streaming InitContext _ _ sc hsc).2.2 watchHello
      (by simp) rfl (by decide)

theorem registrations_unbound (ms : List Method) (m : Method) (hm : m ∈ ms)
    (hss : m.serverStreaming = false) (hnone : getHandler m = none) :
    registrations ms = none := by
  induction ms with
  | nil => exact absurd hm (List.not_mem_nil _)
  | cons x xs ih =>
    unfold registrations
    rcases List.mem_cons.1 hm with h | h
    · subst h
      simp [hss, handlerMethod, hnone]
    · have := ih h
      by_cases hx : x.serverStreaming = true
      · simp [hx, this]
      · have hx₂ : x.serverStreaming = false := by simpa using hx
        simp only [hx₂, Bool.false_eq_true, if_false, this]
        cases handlerMethod x <;> cases handlerPattern x <;> rfl

theorem serviceCodes_unbound (p : MicroWebModule) (f : File) (svcs : List Service)
    (svc : Service) (m : Method) (hsvc : svc ∈ svcs) (hm : m ∈ svc.methods)
    (hss : m.serverStreaming = false) (hnone : getHandler m = none) :
    serviceCodes p f svcs = none := by
  induction svcs with
  | nil => exact absurd hsvc (List.not_mem_nil _)
  | cons x xs ih =>
    unfold serviceCodes
    rcases List.mem_cons.1 hsvc with h | h
    · subst h
      have : serviceCode p f svc = none := by
        unfold serviceCode
        rw [registrations_unbound svc.methods m hm hss hnone]
        split <;> rfl
      simp [this]
    · rw [ih h]
      split <;> rfl

/-- The execution of the template fails on every file with a method that is not
server-streaming and has no binding: `handlerMethod` reads through the nil pointer that
`getHandler` returns for it. -/
theorem executeTemplate_unbound (p : MicroWebModule) (f : File) (svc : Service)
    (m : Method) (hsvc : svc ∈ f.services) (hm : m ∈ svc.methods)
    (hss : m.serverStreaming = false) (hnone : getHandler m = none) :
    (executeTemplate p f).2 = none := by
  unfold executeTemplate
  simp only
  rw [serviceCodes_unbound _ f f.services svc m hsvc hm hss hnone]

/-- C7, the code at the failing input: on a file whose service `Greeter` has the bound
method `SayHello` and the method `Ping` without HTTP rule, `getHandler` returns nil for
`Ping` and the execution of the template fails, so that nothing is emitted, not even for
`SayHello`. -/
theorem executeTemplate_fails_on_unbound_method :
    getHandler ping = none
    ∧ handlerMethod ping = none
    ∧ (executeTemplate InitContext
        (greeterFile [{ name := "Greeter", methods := [sayHello, ping] }])).2.isNone
        = true := by
  refine ⟨by decide, by decide, ?_⟩
  rw [executeTemplate_unbound InitContext _ { name := "Greeter", methods := [sayHello, ping] }
    ping (by simp [greeterFile]) (by simp) rfl (by decide)]
  rfl

/-! ## C8: the alias table across the files of a run -/

/-- C8, the code at the failing input: a run on the two targets `billingFile`, whose method
`Charge` takes its input from `example.com/common/money`, and the greeter file, none of
whose methods uses that path. The alias table is made once by `InitContext` and never
emptied, so when `billingFile` is rendered first the alias `commonmoney` is in the table
that `extraImports` returns during the render of the greeter file, and the line
`commonmoney "example.com/common/money"` is in the block of imports emitted for the greeter
file; when the greeter file is rendered first its block has no such line. -/
theorem alias_table_not_scoped_to_one_file :
    (∀ svc ∈ (greeterFile [{ name := "Greeter", methods := [sayHello] }]).services,
      ∀ m ∈ svc.methods, m.input.importPath ≠ "example.com/common/money"
        ∧ m.output.importPath ≠ "example.com/common/money")
    ∧ mapGet (extraImports (executeTemplate InitContext billingFile).1 []).eimp
        "example.com/common/money" = some "commonmoney"
    ∧ (renderArtifacts InitContext
        (Execute (fun f => f.name ++ ".web.go") []
          [billingFile, greeterFile [{ name := "Greeter", methods := [sayHello] }]])).map
          (fun out => out.map (fun r => (r.1, r.2.extraImportLines)))
        = some [("billing.web.go", [("commonmoney", "example.com/common/money")]),
                ("greeter.web.go", [("commonmoney", "example.com/common/money")])]
    ∧ (renderArtifacts InitContext
        (Execute (fun f => f.name ++ ".web.go") []
          [greeterFile [{ name := "Greeter", methods := [sayHello] }], billingFile])).map
          (fun out => out.map (fun r => (r.1, r.2.extraImportLines)))
        = some [("greeter.web.go", []),
                ("billing.web.go", [("commonmoney", "example.com/common/money")])] := by
  refine ⟨by decide, by decide, by decide, by decide⟩

/-! ## C9: the error branches of a handler -/

theorem errBranchesOf_append (a b : List Stmt) :
    errBranchesOf (a ++ b) = errBranchesOf a ++ errBranchesOf b := by
  induction a with
  | nil => simp [errBranchesOf]
  | cons s rest ih => simp [errBranchesOf, ih]

theorem getHandler_method (m : Method) (hd : handler) (h : getHandler m = some hd) :
    hd.method ∈ ["GET", "POST", "PUT", "PATCH", "DELETE"] := by
  unfold getHandler at h
  split at h
  · exact absurd h (by simp)
  · split_ifs at h <;> simp only [Option.some.injEq] at h <;> subst h <;> simp

theorem successStmts_cases (p : MicroWebModule) (m : Method) (success : List Stmt)
    (h : successStmts p m = some success) :
    success = [ .renderStatus "http.StatusNoContent", .renderNoContent ]
    ∨ success = okResponse := by
  unfold successStmts at h
  split_ifs at h with halias
  · cases hg : getHandler m with
    | none => simp [verbResponse, handlerMethod, hg] at h
    | some hd =>
      have hverb := getHandler_method m hd hg
      simp only [verbResponse, handlerMethod, hg, Option.some.injEq] at h
      subst h
      right
      simp only [List.mem_cons, List.mem_singleton, List.not_mem_nil, or_false] at hverb
      rcases hverb with hv | hv | hv | hv | hv <;> rw [hv] <;> simp
  · simp only [Option.some.injEq] at h
    exact Or.inl h.symm

/-- C9 as the code has it. In every emitted handler the error branches are those of the
request decoding followed by the one of the business logic call, which comes after the
decoding. Each decode failure branch (form parse, nested JSON parse, weak decode, JSON body
decode) is the same text: it responds with status `http.StatusOK`, which is 200, and the
envelope `{"ParseRequestFailed", http.StatusBadRequest, err.Error(), "", false}`, whose
`Code` field is 400, and ends in `return` without any call in it. The business logic error
branch responds with status `http.StatusBadRequest`, which is 400, and an envelope of the
same struct type `{status.Id, status.Code, status.Detail, status.Status, false}`, and ends
in `return`. -/
theorem error_branches_of_handler (p : MicroWebModule) (f : File) (svc : Service)
    (m : Method) (h : HandlerFunc) (hh : handlerFunc p f svc m = some h) :
    (∃ success, successStmts p m = some success
      ∧ h.body = [ .define "req" (holder p f m.input), .define "resp" (holder p f m.output) ]
          ++ decodeStmts p m ++ [ .ifErr (businessCall m) businessFailed ] ++ success)
    ∧ errBranchesOf h.body
        = errBranchesOf (decodeStmts p m) ++ [(businessCall m, businessFailed)]
    ∧ (∀ b ∈ errBranchesOf (decodeStmts p m), b.2 = parseFailed)
    ∧ (getExtraImportAlias p m.input.importPath ≠ "ptypesempty" →
        (errBranchesOf (decodeStmts p m)).map Prod.fst
          = ["r.ParseForm()", "json.Unmarshal([]byte(v), &vv)",
             "mapstructure.WeakDecode(m, &req)", "json.NewDecoder(r.Body).Decode(&req)"])
    ∧ (getExtraImportAlias p m.input.importPath = "ptypesempty" → decodeStmts p m = [])
    ∧ written parseFailed none []
        = [{ status := some "http.StatusOK"
             value := some (.envelope "\"ParseRequestFailed\"" "http.StatusBadRequest"
               "err.Error()" "\"\"" "false") }]
    ∧ httpStatus "http.StatusOK" = some 200
    ∧ httpStatus "http.StatusBadRequest" = some 400
    ∧ parseFailed.getLast? = some .ret
    ∧ errBranchesOf parseFailed = []
    ∧ written businessFailed none []
        = [{ status := some "http.StatusBadRequest"
             value := some (.envelope "status.Id" "status.Code" "status.Detail"
               "status.Status" "false") }]
    ∧ businessFailed.getLast? = some .ret := by
  have hbody : ∃ success, successStmts p m = some success
      ∧ h.body = [ .define "req" (holder p f m.input), .define "resp" (holder p f m.output) ]
          ++ decodeStmts p m ++ [ .ifErr (businessCall m) businessFailed ] ++ success := by
    unfold handlerFunc at hh
    split at hh
    · exact absurd hh (by simp)
    · next success hs =>
      simp only [Option.some.injEq] at hh
      subst hh
      exact ⟨success, hs, rfl⟩
  have hdecode : ∀ b ∈ errBranchesOf (decodeStmts p m), b.2 = parseFailed := by
    intro b hb
    unfold decodeStmts at hb
    split_ifs at hb
    · simp only [errBranchesOf, Stmt.errBranches, parseFailed, List.append_nil,
        List.cons_append, List.nil_append, List.mem_cons, List.not_mem_nil, or_false] at hb
      rcases hb with hb | hb | hb | hb <;> rw [hb] <;> rfl
    · simp [errBranchesOf] at hb
  refine ⟨hbody, ?_, hdecode, ?_, ?_, by decide, by decide, by decide, rfl, rfl, by decide,
    rfl⟩
  · obtain ⟨success, hs, hb⟩ := hbody
    have hnone : errBranchesOf success = [] := by
      rcases successStmts_cases p m success hs with h1 | h1 <;> rw [h1] <;> rfl
    rw [hb]
    simp only [errBranchesOf_append, hnone, List.append_nil]
    simp [errBranchesOf, Stmt.errBranches, businessFailed]
  · intro halias
    simp only [decodeStmts, halias, ne_eq, not_false_eq_true, if_true]
    rfl
  · intro halias
    simp [decodeStmts, halias]

/-- C9 at the method `SayHello` bound to GET: its handler is emitted with the five error
branches, the decode failure ones responding with status `http.StatusOK`. -/
theorem error_branches_of_handler_witness :
    ∃ h, handlerFunc InitContext (greeterFile [{ name := "Greeter", methods := [sayHello] }])
        { name := "Greeter", methods := [sayHello] } sayHello = some h
      ∧ (errBranchesOf h.body).map Prod.fst
        = ["r.ParseForm()", "json.Unmarshal([]byte(v), &vv)",
           "mapstructure.WeakDecode(m, &req)", "json.NewDecoder(r.Body).Decode(&req)",
           "h.h.SayHello(r.Context(), req, resp)"] := by
  have hsome : (handlerFunc InitContext
      (greeterFile [{ name := "Greeter", methods := [sayHello] }])
      { name := "Greeter", methods := [sayHello] } sayHello).isSome = true := rfl
  obtain ⟨h, hh⟩ := Option.isSome_iff_exists.1 hsome
  have hthm := error_branches_of_handler InitContext _ _ sayHello h hh
  refine ⟨h, hh, ?_⟩
  rw [hthm.2.1, List.map_append, hthm.2.2.2.1 (by decide)]
  rfl

/-- C9 as the specification states it fails: in the handler emitted for `SayHello` the four decode
failure branches respond with HTTP status 200, not 400; only the business logic error branch
responds with 400. -/
theorem decode_failure_status_is_200 :
    (handlerFunc InitContext (greeterFile [{ name := "Greeter", methods := [sayHello] }])
        { name := "Greeter", methods := [sayHello] } sayHello).map
      (fun h => (errBranchesOf h.body).map
        (fun b => (b.1, (written b.2 none []).map (fun w => w.status.bind httpStatus))))
      = some [("r.ParseForm()", [some 200]),
              ("json.Unmarshal([]byte(v), &vv)", [some 200]),
              ("mapstructure.WeakDecode(m, &req)", [some 200]),
              ("json.NewDecoder(r.Body).Decode(&req)", [some 200]),
              ("h.h.SayHello(r.Context(), req, resp)", [some 400])] := by
  decide

/-! ## C10: the success response -/

theorem successStmts_of_bound (p : MicroWebModule) (m : Method) (hd : handler)
    (hb : getHandler m = some hd) :
    successStmts p m
      = some (if getExtraImportAlias p m.output.importPath ≠ "ptypesempty" then okResponse
              else [ .renderStatus "http.StatusNoContent", .renderNoContent ]) := by
  have hverb := getHandler_method m hd hb
  unfold successStmts
  split_ifs with halias
  · simp only [verbResponse, handlerMethod, hb, Option.some.injEq]
    simp only [List.mem_cons, List.mem_singleton, List.not_mem_nil, or_false] at hverb
    rcases hverb with hv | hv | hv | hv | hv <;> rw [hv] <;> simp
  · rfl

/-- The well-known empty message, when it is foreign to the file, has the alias
`ptypesempty` in every state the execution of the template on the file reaches from a
coherent one. -/
theorem empty_marker_alias (p : MicroWebModule) (f : File) (svc : Service) (m : Method)
    (msg : Message) (hp : Coherent p) (hsvc : svc ∈ f.services) (hm : m ∈ svc.methods)
    (hmsg : msg = m.input ∨ msg = m.output) (hforeign : msg.importPath ≠ f.importPath)
    (hempty : specIsEmptyMarker msg) :
    getExtraImportAlias (executeTemplate p f).1 msg.importPath = "ptypesempty" := by
  rw [executeTemplate_state]
  obtain ⟨v, hv⟩ := registerImports_registered p f svc m msg hsvc hm hmsg hforeign
  have hco := registerImports_coherent p f hp
  have hconv : convPath p msg.importPath = "github.com/golang/protobuf/ptypes/empty" := by
    rw [← hempty.2]
    simp [convPath, hp.1]
  have hconv₂ : convPath (registerImports p f) msg.importPath
      = "github.com/golang/protobuf/ptypes/empty" := by
    rw [← hempty.2]
    simp [convPath, hco.1]
  have hval := hco.2 _ _ hv
  rw [hconv] at hv hval
  have halias : newAlias "github.com/golang/protobuf/ptypes/empty" = "ptypesempty" := by
    decide
  simp only [getExtraImportAlias, hconv₂, hv, Option.getD_some, hval, halias]

/-- C10 as the code has it. For every method with a binding, whose verb is one of the five,
the success path is decided only by the alias the table holds for the import path of the
Output type: when the alias is `ptypesempty` the handler emits exactly one response, status
`http.StatusNoContent` (204) with no body, and no statement rendering `resp`; otherwise
exactly one response, status `http.StatusOK` (200) with `resp` rendered as JSON. The text
does not depend on the verb: two bound methods with the same Output path get the same
success statements. The canonical empty marker, imported from another package, has the
alias `ptypesempty` in every coherent run, and so has any other path whose last two
segments are `ptypes` and `empty`. -/
theorem success_response_by_alias (p : MicroWebModule) (m : Method) (hd : handler)
    (hb : getHandler m = some hd) :
    hd.method ∈ ["GET", "POST", "PUT", "PATCH", "DELETE"]
    ∧ (getExtraImportAlias p m.output.importPath = "ptypesempty" →
        successStmts p m = some [ .renderStatus "http.StatusNoContent", .renderNoContent ])
    ∧ (getExtraImportAlias p m.output.importPath ≠ "ptypesempty" →
        successStmts p m = some okResponse)
    ∧ written [ .renderStatus "http.StatusNoContent", .renderNoContent ] none []
        = [{ status := some "http.StatusNoContent", value := none }]
    ∧ written okResponse none []
        = [{ status := some "http.StatusOK", value := some (.text "resp") }]
    ∧ httpStatus "http.StatusNoContent" = some 204
    ∧ httpStatus "http.StatusOK" = some 200
    ∧ (∀ m₂ hd₂, getHandler m₂ = some hd₂ →
        m₂.output.importPath = m.output.importPath →
        successStmts p m₂ = successStmts p m)
    ∧ (∀ f svc, Coherent p → svc ∈ f.services → m ∈ svc.methods →
        m.output.importPath ≠ f.importPath → specIsEmptyMarker m.output →
        successStmts (executeTemplate p f).1 m
          = some [ .renderStatus "http.StatusNoContent", .renderNoContent ])
    ∧ (∀ f svc init, Coherent p → svc ∈ f.services → m ∈ svc.methods →
        m.output.importPath ≠ f.importPath →
        convPath p m.output.importPath = "/".intercalate (init ++ ["ptypes", "empty"]) →
        (∀ s ∈ init, '/' ∉ s.toList) →
        successStmts (executeTemplate p f).1 m
          = some [ .renderStatus "http.StatusNoContent", .renderNoContent ]) := by
  have hs := fun q => successStmts_of_bound q m hd hb
  refine ⟨getHandler_method m hd hb, ?_, ?_, by decide, by decide, by decide, by decide,
    ?_, ?_, ?_⟩
  · intro halias
    rw [hs, halias]
    simp
  · intro halias
    rw [hs]
    simp [halias]
  · intro m₂ hd₂ hb₂ hpath
    rw [hs, successStmts_of_bound p m₂ hd₂ hb₂, hpath]
  · intro f svc hp hsvc hm hforeign hempty
    have := empty_marker_alias p f svc m m.output hp hsvc hm (Or.inr rfl) hforeign hempty
    rw [hs, this]
    simp
  · intro f svc init hp hsvc hm hforeign hpath hfree
    rw [hs, executeTemplate_state]
    obtain ⟨v, hv⟩ := registerImports_registered p f svc m m.output hsvc hm (Or.inr rfl)
      hforeign
    have hco := registerImports_coherent p f hp
    have hval := hco.2 _ _ hv
    have hconv₂ : convPath (registerImports p f) m.output.importPath
        = convPath p m.output.importPath := by
      simp [convPath, hco.1, hp.1]
    have hsplit : stringsSplit (convPath p m.output.importPath) '/'
        = init ++ ["ptypes", "empty"] := by
      rw [hpath]
      refine stringsSplit_intercalate '/' _ (by simp) ?_
      intro s hs
      rcases List.mem_append.1 hs with h | h
      · exact hfree s h
      · simp only [List.mem_cons, List.mem_singleton, List.not_mem_nil, or_false] at h
        rcases h with h | h <;> rw [h] <;> decide
    have halias : newAlias (convPath p m.output.importPath) = "ptypesempty" := by
      simp only [newAlias, hsplit]
      simp [stringsJoinEmpty]
    simp only [getExtraImportAlias, hconv₂, hv, Option.getD_some, hval, halias]
    simp

/-- C10 at the method `SayHello`, bound to GET with an Output that is not the empty marker:
its success path is one response with status `http.StatusOK` and `resp` as JSON. -/
theorem success_response_by_alias_witness :
    successStmts InitContext sayHello = some okResponse :=
  (success_response_by_alias InitContext sayHello
    { method := "GET", pattern := "/v1/hello/\x7bname\x7d", body := "" }
    (by decide)).2.2.1 (by decide)

/-- C10 as the specification states it fails: the Output of `getThing` is the message `Thing` of
the package `example.com/ptypes/empty`, not the canonical empty marker, and yet the success
path emitted for it in its file is the no-content response, without any rendering of the
Output value. -/
theorem success_path_not_decided_by_empty_marker :
    ¬ specIsEmptyMarker getThing.output
    ∧ getHandler getThing = some { method := "GET", pattern := "/v1/thing", body := "" }
    ∧ (successStmts
        (executeTemplate InitContext
          (greeterFile [{ name := "Greeter", methods := [getThing] }])).1 getThing).map
        (fun stmts => written stmts none [])
      = some [{ status := some "http.StatusNoContent", value := none }] := by
  refine ⟨by decide, by decide, by decide⟩

/-! ## Further properties of the template -/

theorem handlerFunc_of_bound (p : MicroWebModule) (f : File) (svc : Service) (m : Method)
    (hbound : getHandler m ≠ none) :
    ∃ h, handlerFunc p f svc m = some h ∧ h.name = m.name := by
  obtain ⟨hd, hb⟩ := Option.ne_none_iff_exists'.1 hbound
  unfold handlerFunc
  rw [successStmts_of_bound p m hd hb]
  exact ⟨_, rfl, rfl⟩

theorem handlerFuncs_of_bound (p : MicroWebModule) (f : File) (svc : Service)
    (ms : List Method) (hbound : ∀ m ∈ ms, getHandler m ≠ none) :
    ∃ hs, handlerFuncs p f svc ms = some hs
      ∧ hs.map (fun h => h.name) = ms.map (fun m => m.name) := by
  induction ms with
  | nil => exact ⟨[], rfl, rfl⟩
  | cons m ms ih =>
    obtain ⟨h, hh, hname⟩ := handlerFunc_of_bound p f svc m (hbound m (List.mem_cons_self _ _))
    obtain ⟨hs, hhs, hnames⟩ := ih (fun x hx => hbound x (List.mem_cons_of_mem _ hx))
    refine ⟨h :: hs, ?_, ?_⟩
    · simp only [handlerFuncs, hh, hhs]
    · simp [hnames, hname]

theorem registrations_of_bound (ms : List Method)
    (hbound : ∀ m ∈ ms, getHandler m ≠ none) :
    ∃ regs, registrations ms = some regs := by
  induction ms with
  | nil => exact ⟨[], rfl⟩
  | cons m ms ih =>
    obtain ⟨hd, hb⟩ := Option.ne_none_iff_exists'.1 (hbound m (List.mem_cons_self _ _))
    obtain ⟨regs, hregs⟩ := ih (fun x hx => hbound x (List.mem_cons_of_mem _ hx))
    unfold registrations
    by_cases hss : m.serverStreaming = true
    · exact ⟨regs, by simp [hss, hregs]⟩
    · have hss₂ : m.serverStreaming = false := by simpa using hss
      refine ⟨{ verb := hd.method, path := handlerPrefix m ++ hd.pattern,
                handlerName := m.name } :: regs, ?_⟩
      simp only [hss₂, Bool.false_eq_true, if_false, handlerMethod, handlerPattern, hb,
        hregs]

/-- When every method of a service has a binding, the text for the service is emitted, with
one handler function for every method, the server-streaming ones included, and one
registration entry for every method that is not server-streaming. -/
theorem serviceCode_of_bound (p : MicroWebModule) (f : File) (svc : Service)
    (hbound : ∀ m ∈ svc.methods, getHandler m ≠ none) :
    ∃ sc, serviceCode p f svc = some sc
      ∧ sc.handlers.map (fun h => h.name) = svc.methods.map (fun m => m.name)
      ∧ sc.registrations.map (fun r => r.handlerName)
          = (svc.methods.filter (fun m => !m.serverStreaming)).map (fun m => m.name) := by
  obtain ⟨hs, hhs, hnames⟩ := handlerFuncs_of_bound p f svc svc.methods hbound
  obtain ⟨regs, hregs⟩ := registrations_of_bound svc.methods hbound
  refine ⟨{ name := svc.name, handlers := hs, registrations := regs }, ?_, hnames, ?_⟩
  · simp only [serviceCode, hhs, hregs]
  · exact (registrations_spec svc.methods regs hregs).1

/-- The service with the bound methods `SayHello` and `WatchHello` (server-streaming) gets
two handler functions and one registration entry. -/
theorem serviceCode_of_bound_witness :
    ∃ sc, serviceCode InitContext
        (greeterFile [{ name := "Greeter", methods := [sayHello, watchHello] }])
        { name := "Greeter", methods := [sayHello, watchHello] } = some sc
      ∧ sc.handlers.map (fun h => h.name) = ["SayHello", "WatchHello"]
      ∧ sc.registrations.map (fun r => r.handlerName) = ["SayHello"] :=
  serviceCode_of_bound InitContext
    (greeterFile [{ name := "Greeter", methods := [sayHello, watchHello] }])
    { name := "Greeter", methods := [sayHello, watchHello] } (by decide)

/-- The alias of a path with at least two segments depends on its last two segments only:
two such paths that end in the same two segments get the same alias. -/
theorem newAlias_collision (init₁ init₂ : List String) (a b : String)
    (h₁ : ∀ s ∈ init₁, '/' ∉ s.toList) (h₂ : ∀ s ∈ init₂, '/' ∉ s.toList)
    (ha : '/' ∉ a.toList) (hb : '/' ∉ b.toList) :
    newAlias ("/".intercalate (init₁ ++ [a, b])) = a ++ b
    ∧ newAlias ("/".intercalate (init₁ ++ [a, b]))
        = newAlias ("/".intercalate (init₂ ++ [a, b])) := by
  have key : ∀ init : List String, (∀ s ∈ init, '/' ∉ s.toList) →
      newAlias ("/".intercalate (init ++ [a, b])) = a ++ b := by
    intro init hinit
    have hsplit : stringsSplit ("/".intercalate (init ++ [a, b])) '/' = init ++ [a, b] := by
      refine stringsSplit_intercalate '/' _ (by simp) ?_
      intro s hs
      rcases List.mem_append.1 hs with h | h
      · exact hinit s h
      · simp only [List.mem_cons, List.mem_singleton, List.not_mem_nil, or_false] at h
        rcases h with h | h <;> rw [h] <;> assumption
    simp only [newAlias, hsplit]
    simp [stringsJoinEmpty]
    rfl
  exact ⟨key init₁ h₁, (key init₁ h₁).trans (key init₂ h₂).symm⟩

/-- Two distinct paths ending in `ptypes/empty` both get the alias `ptypesempty`. -/
theorem newAlias_collision_witness :
    newAlias "github.com/golang/protobuf/ptypes/empty" = "ptypes" ++ "empty"
    ∧ newAlias "github.com/golang/protobuf/ptypes/empty"
        = newAlias "example.com/ptypes/empty" :=
  newAlias_collision ["github.com", "golang", "protobuf"] ["example.com"] "ptypes" "empty"
    (by decide) (by decide) (by decide) (by decide)

end MicroWeb
